import Mathlib

/-!
# wrong_ex.cpp : a thread handle destroyed while it is still joinable

Shallow embedding of `src/wrong_ex.cpp` as an interleaving transition system.

* `main`, `threadA`, `threadB` are the three functions of the source, each
  turned into a step function on a shared `State`: one call executes the
  statement at the thread's program counter.
* `step` lets a scheduler pick which thread moves next; `exec` runs a whole
  schedule.  Every interleaving of the program is a schedule.
* `std::thread` handles follow the C++ rules the source relies on:
  the destructor and move assignment call `std::terminate` when the handle is
  joinable, `join` blocks until the thread has returned and leaves the handle
  not joinable, `join` on a handle that is not joinable is an error.
* `std::terminate` is two-phase, as in the sample run quoted in the source
  comment (where "Start thread B" shows up after the terminate message):
  the violation is detected (`Status.terminating`), and the process dies when
  the faulting thread reaches `abort` (`Status.aborted`); other threads may
  still run in between.
* Standard output is buffered as C++ streams are by default: the three
  prints end in "\n" and never flush.  When stdout is a terminal
  (`State.tty`) it is line-buffered and each line is written at its newline;
  otherwise the lines stay in the buffer (`State.buf`) and reach the output
  (`State.out`) only when the process exits normally.  `abort` does not flush.
* The flag `joinB` selects the program text: `false` is the file as given
  (line 12 `B.join();` commented out), `true` is the file with line 12
  uncommented.
-/

namespace WrongEx

/-- The three threads of control of the program. -/
inductive Tid where
  | main
  | A
  | B
deriving DecidableEq, Repr

/-- The `std::thread` objects of the program: the locals `A` and `B` of `main`
and the temporary `std::thread(threadB)` created inside `threadA`. -/
inductive HandleName where
  | A
  | B
  | tmp
deriving DecidableEq, Repr

/-- The lines the program passes to `std::cout`. -/
inductive Line where
  | startB
  | byeB
  | exitA
deriving DecidableEq, Repr

/-- The text of each output line, as in the source. -/
def Line.text : Line → String
  | .startB => "Start thread B\n"
  | .byeB => "Bye thread B\n"
  | .exitA => "Exit Thread A\n"

/-- State of one `std::thread` object: default-constructed or moved-from
(`empty`), owning a thread that has not been joined (`joinable`), or joined. -/
inductive Handle where
  | empty
  | joinable (t : Tid)
  | joined
deriving DecidableEq, Repr

/-- Counterpart of `std::thread::joinable()`. -/
def Handle.isJoinable : Handle → Bool
  | .joinable _ => true
  | _ => false

/-- The contract breaches of `std::thread`. -/
inductive Fault where
  | destroyedWhileJoinable (h : HandleName)
  | reassignedWhileJoinable (h : HandleName)
  | joinNotJoinable (h : HandleName)
deriving DecidableEq, Repr

/-- Process status: running, `std::terminate` called by thread `t` (the
process is not dead yet), killed by `abort`, or exited with a code. -/
inductive Status where
  | running
  | terminating (f : Fault) (t : Tid)
  | aborted (f : Fault)
  | exited (code : Nat)
deriving DecidableEq, Repr

/-- History of operations on thread handles: who did what to which handle. -/
inductive Event where
  | construct (t : Tid) (h : HandleName)
  | spawn (t : Tid) (h : HandleName) (child : Tid)
  | assign (t : Tid) (dst : HandleName) (src : HandleName)
  | join (t : Tid) (h : HandleName)
  | destroy (t : Tid) (h : HandleName)
deriving DecidableEq, Repr

/-- Program counter of `main` (lines 20-24): the statement to execute next.
`destroyA` and `destroyB` are the destructors run at the closing brace, in
reverse order of declaration; `ret` is the implicit `return 0`. -/
inductive MainPc where
  | declB
  | spawnA
  | joinA
  | destroyA
  | destroyB
  | ret
  | finished
deriving DecidableEq, Repr

/-- Program counter of `threadA` (lines 10-18).  Line 11 is three operations:
construct the temporary (which starts task B), move-assign it into `B`,
destroy the temporary. -/
inductive APc where
  | notStarted
  | mkTemp
  | assignB
  | dropTemp
  | joinB
  | printExit
  | ret
  | finished
deriving DecidableEq, Repr

/-- Program counter of `threadB` (lines 4-8). -/
inductive BPc where
  | notStarted
  | printStart
  | sleep
  | printBye
  | ret
  | finished
deriving DecidableEq, Repr

/-- Whole-program state.  A handle is `none` outside its lifetime.  `tty`
tells whether standard output is a terminal; `out` holds the lines already
written to standard output, `buf` the lines still in its buffer. -/
structure State where
  pcMain : MainPc
  pcA : APc
  pcB : BPc
  hA : Option Handle
  hB : Option Handle
  tmp : Option Handle
  status : Status
  tty : Bool
  out : List Line
  buf : List Line
  log : List Event
deriving DecidableEq, Repr

/-- State at process start; `tty` tells whether standard output is a
terminal. -/
def init (tty : Bool) : State :=
  { pcMain := .declB, pcA := .notStarted, pcB := .notStarted,
    hA := none, hB := none, tmp := none,
    status := .running, tty := tty, out := [], buf := [], log := [] }

/-- Has thread `t` returned from its entry function? -/
def State.done (s : State) : Tid → Bool
  | .main => false
  | .A => decide (s.pcA = .finished)
  | .B => decide (s.pcB = .finished)

/-- Thread `t` calls `std::terminate` because of `f`.  A second call while
one is in progress kills the process at once. -/
def State.raise (s : State) (f : Fault) (t : Tid) : State :=
  match s.status with
  | .running => { s with status := .terminating f t }
  | .terminating f0 _ => { s with status := .aborted f0 }
  | _ => s

/-- Counterpart of `std::cout << line` for a line ending in "\n", without a
flush: on a terminal the newline makes the line appear at once, otherwise
the line waits in the buffer. -/
def State.print (s : State) (l : Line) : State :=
  { s with
    out := if s.tty then s.out ++ [l] else s.out,
    buf := if s.tty then s.buf else s.buf ++ [l] }

/-- Append an event to the history. -/
def State.record (s : State) (e : Event) : State :=
  { s with log := s.log ++ [e] }

/-- One statement of `threadB`. -/
def threadB (s : State) : Option State :=
  match s.pcB with
  | .notStarted => none
  | .printStart => some { s.print .startB with pcB := .sleep }
  | .sleep => some { s with pcB := .printBye }
  | .printBye => some { s.print .byeB with pcB := .ret }
  | .ret => some { s with pcB := .finished }
  | .finished => none

/-- One statement of `threadA`; `joinB` tells whether line 12 is present. -/
def threadA (joinB : Bool) (s : State) : Option State :=
  match s.pcA with
  | .notStarted => none
  | .mkTemp =>
    some { s.record (.spawn .A .tmp .B) with
      tmp := some (.joinable .B), pcB := .printStart, pcA := .assignB }
  | .assignB =>
    match s.hB with
    | some (.joinable _) =>
      some ((s.record (.assign .A .B .tmp)).raise (.reassignedWhileJoinable .B) .A)
    | _ =>
      some { s.record (.assign .A .B .tmp) with
        hB := s.tmp, tmp := some .empty, pcA := .dropTemp }
  | .dropTemp =>
    match s.tmp with
    | some (.joinable _) =>
      some ((s.record (.destroy .A .tmp)).raise (.destroyedWhileJoinable .tmp) .A)
    | _ =>
      some { s.record (.destroy .A .tmp) with
        tmp := none, pcA := if joinB then .joinB else .printExit }
  | .joinB =>
    match s.hB with
    | some (.joinable c) =>
      if s.done c then
        some { s.record (.join .A .B) with hB := some .joined, pcA := .printExit }
      else none
    | _ => some ((s.record (.join .A .B)).raise (.joinNotJoinable .B) .A)
  | .printExit => some { s.print .exitA with pcA := .ret }
  | .ret => some { s with pcA := .finished }
  | .finished => none

/-- One statement of `main`.  The return from `main` exits the process, which
flushes the buffer of standard output. -/
def main (s : State) : Option State :=
  match s.pcMain with
  | .declB =>
    some { s.record (.construct .main .B) with hB := some .empty, pcMain := .spawnA }
  | .spawnA =>
    some { s.record (.spawn .main .A .A) with
      hA := some (.joinable .A), pcA := .mkTemp, pcMain := .joinA }
  | .joinA =>
    match s.hA with
    | some (.joinable c) =>
      if s.done c then
        some { s.record (.join .main .A) with hA := some .joined, pcMain := .destroyA }
      else none
    | _ => some ((s.record (.join .main .A)).raise (.joinNotJoinable .A) .main)
  | .destroyA =>
    match s.hA with
    | some (.joinable _) =>
      some ((s.record (.destroy .main .A)).raise (.destroyedWhileJoinable .A) .main)
    | _ => some { s.record (.destroy .main .A) with hA := none, pcMain := .destroyB }
  | .destroyB =>
    match s.hB with
    | some (.joinable _) =>
      some ((s.record (.destroy .main .B)).raise (.destroyedWhileJoinable .B) .main)
    | _ => some { s.record (.destroy .main .B) with hB := none, pcMain := .ret }
  | .ret =>
    some { s with
      out := s.out ++ s.buf, buf := [], status := .exited 0, pcMain := .finished }
  | .finished => none

/-- The statement of thread `t`, whichever thread that is. -/
def runThread (joinB : Bool) (s : State) : Tid → Option State
  | .main => main s
  | .A => threadA joinB s
  | .B => threadB s

/-- One scheduler step: thread `t` moves.  `none` when `t` cannot move (not
started, returned, blocked in `join`) or the process has ended.  The thread
that called `std::terminate` goes on to `abort`, which kills the process
without flushing standard output: what is in `buf` is never written. -/
def step (joinB : Bool) (s : State) (t : Tid) : Option State :=
  match s.status with
  | .running => runThread joinB s t
  | .terminating f t0 =>
    if t = t0 then some { s with status := .aborted f } else runThread joinB s t
  | .aborted _ => none
  | .exited _ => none

/-- Run a schedule; `none` if some scheduled thread could not move. -/
def exec (joinB : Bool) (s : State) : List Tid → Option State
  | [] => some s
  | t :: ts => (step joinB s t).bind (fun s1 => exec joinB s1 ts)

/-- States some interleaving of the program reaches. -/
def Reachable (joinB : Bool) (s : State) : Prop :=
  ∃ tty sched, exec joinB (init tty) sched = some s

/-- No thread can move: the execution is complete. -/
def Terminal (joinB : Bool) (s : State) : Prop :=
  ∀ t, step joinB s t = none

/-- The fatal condition has been raised: `std::terminate` was called. -/
def State.fatal (s : State) : Bool :=
  match s.status with
  | .terminating _ _ => true
  | .aborted _ => true
  | _ => false

/-- Is the event a call of `join`? -/
def Event.isJoin : Event → Bool
  | .join _ _ => true
  | _ => false

/-- Is the event a move assignment into handle `h`? -/
def Event.assignsTo (h : HandleName) : Event → Bool
  | .assign _ d _ => decide (d = h)
  | _ => false

/-- Does the event operate on handle `h`? -/
def Event.touches (h : HandleName) : Event → Bool
  | .construct _ x => decide (x = h)
  | .spawn _ x _ => decide (x = h)
  | .assign _ d src => decide (d = h) || decide (src = h)
  | .join _ x => decide (x = h)
  | .destroy _ x => decide (x = h)

/-- The statement thread `t` would execute now operates on handle `h`. -/
def accesses (joinB : Bool) (s : State) (t : Tid) (h : HandleName) : Bool :=
  match step joinB s t with
  | some s1 => (s1.log.drop s.log.length).any (Event.touches h)
  | none => false

/-- Schedule of the program as given in which task B is never scheduled
before the process dies. -/
def schedNoB : List Tid :=
  [.main, .main, .A, .A, .A, .A, .A, .main, .main, .main, .main]

/-- Schedule of the program as given in which task B runs to completion
before `threadA` goes on, hence before the scope of `main` ends. -/
def schedAllB : List Tid :=
  [.main, .main, .A, .B, .B, .B, .B, .A, .A, .A, .A, .main, .main, .main, .main]

/-- Schedule of the program as given up to the closing brace of `main`:
`A.join()` has returned, no destructor has run, task B has not run. -/
def schedScopeEnd : List Tid :=
  [.main, .main, .A, .A, .A, .A, .A, .main]

/-- Schedule of the program with line 12 present, run to the end. -/
def schedJoin : List Tid :=
  [.main, .main, .A, .A, .A, .B, .B, .B, .B, .A, .A, .A, .main, .main, .main, .main]

/-- History of handle operations of a run of the program as given that has
reached the destruction of `B`. -/
def logGiven : List Event :=
  [.construct .main .B, .spawn .main .A .A, .spawn .A .tmp .B, .assign .A .B .tmp,
    .destroy .A .tmp, .join .main .A, .destroy .main .A, .destroy .main .B]

/-- End state of `schedNoB` when standard output is a terminal. -/
def stNoB : State :=
  { pcMain := .destroyB, pcA := .finished, pcB := .printStart,
    hA := none, hB := some (.joinable .B), tmp := none,
    status := .aborted (.destroyedWhileJoinable .B),
    tty := true, out := [.exitA], buf := [], log := logGiven }

/-- End state of `schedNoB` when standard output is not a terminal: the line
of threadA is still in the buffer when the process is killed. -/
def stNoBFile : State :=
  { pcMain := .destroyB, pcA := .finished, pcB := .printStart,
    hA := none, hB := some (.joinable .B), tmp := none,
    status := .aborted (.destroyedWhileJoinable .B),
    tty := false, out := [], buf := [.exitA], log := logGiven }

/-- End state of `schedAllB` when standard output is a terminal. -/
def stAllB : State :=
  { pcMain := .destroyB, pcA := .finished, pcB := .finished,
    hA := none, hB := some (.joinable .B), tmp := none,
    status := .aborted (.destroyedWhileJoinable .B),
    tty := true, out := [.startB, .byeB, .exitA], buf := [], log := logGiven }

/-- End state of `schedScopeEnd` when standard output is a terminal. -/
def stScopeEnd : State :=
  { pcMain := .destroyA, pcA := .finished, pcB := .printStart,
    hA := some .joined, hB := some (.joinable .B), tmp := none,
    status := .running,
    tty := true, out := [.exitA], buf := [],
    log := [.construct .main .B, .spawn .main .A .A, .spawn .A .tmp .B, .assign .A .B .tmp,
      .destroy .A .tmp, .join .main .A] }

/-- End state of `schedJoin` when standard output is not a terminal: the
exit has flushed the three lines. -/
def stJoin : State :=
  { pcMain := .finished, pcA := .finished, pcB := .finished,
    hA := none, hB := none, tmp := none,
    status := .exited 0,
    tty := false, out := [.startB, .byeB, .exitA], buf := [],
    log := [.construct .main .B, .spawn .main .A .A, .spawn .A .tmp .B, .assign .A .B .tmp,
      .destroy .A .tmp, .join .A .B, .join .main .A, .destroy .main .A, .destroy .main .B] }

/-- State of the program as given, on a terminal, once threadA has created
the temporary and is about to move-assign it into `B`. -/
def stBeforeAssign : State :=
  { pcMain := .joinA, pcA := .assignB, pcB := .printStart,
    hA := some (.joinable .A), hB := some .empty, tmp := some (.joinable .B),
    status := .running, tty := true, out := [], buf := [],
    log := [.construct .main .B, .spawn .main .A .A, .spawn .A .tmp .B] }

/-! ## Invariant -/

/-- Position of `main` in its text. -/
def MainPc.rank : MainPc → Nat
  | .declB => 0
  | .spawnA => 1
  | .joinA => 2
  | .destroyA => 3
  | .destroyB => 4
  | .ret => 5
  | .finished => 6

/-- Position of `threadA` in its text. -/
def APc.rank : APc → Nat
  | .notStarted => 0
  | .mkTemp => 1
  | .assignB => 2
  | .dropTemp => 3
  | .joinB => 4
  | .printExit => 5
  | .ret => 6
  | .finished => 7

/-- Position of `threadB` in its text. -/
def BPc.rank : BPc → Nat
  | .notStarted => 0
  | .printStart => 1
  | .sleep => 2
  | .printBye => 3
  | .ret => 4
  | .finished => 5

/-- Steps the process can still take, used to bound every execution. -/
def State.fuel (s : State) : Nat :=
  match s.status with
  | .running => 2 + (6 - s.pcMain.rank) + (7 - s.pcA.rank) + (5 - s.pcB.rank)
  | .terminating _ _ => 1 + (6 - s.pcMain.rank) + (7 - s.pcA.rank) + (5 - s.pcB.rank)
  | .aborted _ => 0
  | .exited _ => 0

/-- Value of handle `A` at each point of `main`. -/
def hAOf : MainPc → Option Handle
  | .joinA => some (.joinable .A)
  | .destroyA => some .joined
  | _ => none

/-- Value of the temporary at each point of `threadA`. -/
def tmpOf : APc → Option Handle
  | .assignB => some (.joinable .B)
  | .dropTemp => some .empty
  | _ => none

/-- Value of handle `B` at each point of `main` and `threadA`. -/
def hBOf (joinB : Bool) : MainPc → APc → Option Handle
  | .declB, _ => none
  | .ret, _ => none
  | .finished, _ => none
  | _, .notStarted => some .empty
  | _, .mkTemp => some .empty
  | _, .assignB => some .empty
  | _, .dropTemp => some (.joinable .B)
  | _, .joinB => some (.joinable .B)
  | _, _ => if joinB then some .joined else some (.joinable .B)

/-- Handle operations of `main` up to and including the spawn of A. -/
def logMainPre : MainPc → List Event
  | .declB => []
  | .spawnA => [.construct .main .B]
  | _ => [.construct .main .B, .spawn .main .A .A]

/-- Handle operations of `threadA` so far. -/
def logA (joinB : Bool) : APc → List Event
  | .notStarted => []
  | .mkTemp => []
  | .assignB => [.spawn .A .tmp .B]
  | .dropTemp => [.spawn .A .tmp .B, .assign .A .B .tmp]
  | .joinB => [.spawn .A .tmp .B, .assign .A .B .tmp, .destroy .A .tmp]
  | _ =>
    [.spawn .A .tmp .B, .assign .A .B .tmp, .destroy .A .tmp] ++
      (if joinB then [.join .A .B] else [])

/-- Handle operations of `main` from the join on A onwards. -/
def logMainPost : MainPc → Status → List Event
  | .destroyA, _ => [.join .main .A]
  | .destroyB, .running => [.join .main .A, .destroy .main .A]
  | .destroyB, _ => [.join .main .A, .destroy .main .A, .destroy .main .B]
  | .ret, _ => [.join .main .A, .destroy .main .A, .destroy .main .B]
  | .finished, _ => [.join .main .A, .destroy .main .A, .destroy .main .B]
  | _, _ => []

/-- Lines printed by `threadB` so far. -/
def outB : BPc → List Line
  | .notStarted => []
  | .printStart => []
  | .sleep => [.startB]
  | .printBye => [.startB]
  | _ => [.startB, .byeB]

/-- Lines printed by `threadA` so far. -/
def outA : APc → List Line
  | .ret => [.exitA]
  | .finished => [.exitA]
  | _ => []

/-- Every "Bye thread B" in the list has a "Start thread B" before it. -/
def ByeAfterStart (out : List Line) : Prop :=
  ∀ pre post, out = pre ++ Line.byeB :: post → Line.startB ∈ pre

/-- Which combinations of program counters can occur: A has started exactly
when `main` has spawned it, B exactly when A has created the temporary, A runs
only while `main` waits in `A.join()`, line 12 is skipped when absent, and
when present A gets past it only after B has returned; without line 12 `main`
never gets past the destruction of `B`. -/
def shape (j : Bool) (m : MainPc) (a : APc) (b : BPc) : Bool :=
  (decide (a = .notStarted) == decide (m.rank ≤ 1)) &&
  (decide (b = .notStarted) == decide (a.rank ≤ 1)) &&
  (a == .notStarted || a == .finished || m == .joinA) &&
  (j || a != .joinB) &&
  (!j || decide (a.rank < 5) || b == .finished) &&
  (j || decide (m.rank ≤ 4))

/-- What holds in every state an interleaving can reach. -/
structure Inv (joinB : Bool) (s : State) : Prop where
  shape : shape joinB s.pcMain s.pcA s.pcB = true
  status : (s.status = .running ∧ s.pcMain ≠ .finished) ∨
    (joinB = false ∧ s.pcMain = .destroyB ∧
      (s.status = .terminating (.destroyedWhileJoinable .B) .main ∨
        s.status = .aborted (.destroyedWhileJoinable .B))) ∨
    (joinB = true ∧ s.pcMain = .finished ∧ s.status = .exited 0)
  hA : s.hA = hAOf s.pcMain
  hB : s.hB = hBOf joinB s.pcMain s.pcA
  tmp : s.tmp = tmpOf s.pcA
  log : s.log = logMainPre s.pcMain ++ logA joinB s.pcA ++ logMainPost s.pcMain s.status
  bufTty : s.tty = true → s.buf = []
  bufExit : s.pcMain = .finished → s.buf = []
  outFile : s.tty = false → decide (s.pcMain = .finished) = false → s.out = []
  outB : (s.out ++ s.buf).filter (fun l => decide (l ≠ Line.exitA)) = outB s.pcB
  outA : (s.out ++ s.buf).filter (fun l => decide (l = Line.exitA)) = outA s.pcA
  order : ByeAfterStart (s.out ++ s.buf)
  outJoin : joinB = true → s.out ++ s.buf = WrongEx.outB s.pcB ++ WrongEx.outA s.pcA

theorem inv_init (j tty : Bool) : Inv j (init tty) := by
  constructor <;> simp [init, WrongEx.shape, MainPc.rank, APc.rank, BPc.rank, hAOf, hBOf, tmpOf,
    logMainPre, logA, logMainPost, WrongEx.outB, WrongEx.outA, ByeAfterStart]

theorem byeAfterStart_snoc {out : List Line} {x : Line} (h : ByeAfterStart out)
    (hx : x = Line.byeB → Line.startB ∈ out) : ByeAfterStart (out ++ [x]) := by
  intro pre post e
  rcases List.eq_nil_or_concat post with hp | ⟨post1, y, hp⟩
  · subst hp
    have e2 : out ++ [x] = pre ++ [Line.byeB] := by simpa using e
    have := List.append_inj' e2 rfl
    obtain ⟨h1, h2⟩ := this
    subst h1
    exact hx (by simpa using h2)
  · subst hp
    have e2 : out ++ [x] = (pre ++ Line.byeB :: post1) ++ [y] := by simpa using e
    have := List.append_inj' e2 rfl
    exact h pre post1 this.1

theorem startB_mem_of_filter {out : List Line} {r : List Line}
    (h : out.filter (fun l => decide (l ≠ Line.exitA)) = Line.startB :: r) :
    Line.startB ∈ out := by
  have : Line.startB ∈ out.filter (fun l => decide (l ≠ Line.exitA)) := by
    rw [h]; exact List.mem_cons_self _ _
  exact (List.mem_filter.mp this).1

theorem inv_threadB (j : Bool) (s s1 : State) (hi : Inv j s) (hs : threadB s = some s1) :
    Inv j s1 := by
  obtain ⟨pcM, pcA, pcB, hA, hB, tmp, st, tty, out, buf, log⟩ := s
  obtain ⟨i1, i6, i8, i9, i10, i11, b1, b2, b3, i12, i13, i14, i15⟩ := hi
  dsimp only at i1 i6 i8 i9 i10 i11 b1 b2 b3 i12 i13 i14 i15
  cases pcB <;> cases j <;> cases pcA <;> cases pcM <;> first
    | (exfalso; revert i1; decide)
    | (simp [threadB] at hs; done)
    | skip
  all_goals
    cases tty <;> first
      | (have e := b1 rfl; subst e)
      | (have e := b3 rfl rfl; subst e)
  all_goals simp only [List.append_nil, List.nil_append] at i12 i13 i14
  all_goals simp [threadB, State.print] at hs
  all_goals subst hs
  all_goals constructor
  all_goals dsimp only
  all_goals first
    | assumption
    | rfl
    | (intro h; cases h; done)
    | (intro _ h; cases h; done)
    | (simp only [List.append_nil, List.nil_append]; first
        | assumption
        | (apply byeAfterStart_snoc i14; intro hx
           first | exact startB_mem_of_filter i12 | cases hx)
        | (simp only [List.filter_append, i12, i13]; rfl)
        | (intro h; have e := i15 rfl
           simp only [List.append_nil, List.nil_append] at e; rw [e]; rfl))

theorem inv_threadA (j : Bool) (s s1 : State) (hi : Inv j s)
    (hs : threadA j s = some s1) : Inv j s1 := by
  obtain ⟨pcM, pcA, pcB, hA, hB, tmp, st, tty, out, buf, log⟩ := s
  obtain ⟨i1, i6, i8, i9, i10, i11, b1, b2, b3, i12, i13, i14, i15⟩ := hi
  dsimp only at i1 i6 i8 i9 i10 i11 b1 b2 b3 i12 i13 i14 i15
  cases pcA <;> cases j <;> cases pcM <;> cases pcB <;> first
    | (exfalso; revert i1; decide)
    | (simp [threadA] at hs; done)
    | skip
  all_goals
    rcases i6 with ⟨h, -⟩ | ⟨-, hm, h | h⟩ | ⟨-, hm, h⟩ <;> first
      | cases hm
      | skip
  all_goals subst h i8 i9 i10 i11
  all_goals
    cases tty <;> first
      | (have e := b1 rfl; subst e)
      | (have e := b3 rfl rfl; subst e)
  all_goals simp only [List.append_nil, List.nil_append] at i12 i13 i14
  all_goals
    simp [threadA, State.print, State.record, State.raise, State.done, hAOf, hBOf, tmpOf] at hs
  all_goals subst hs
  all_goals constructor
  all_goals dsimp only
  all_goals first
    | assumption
    | rfl
    | decide
    | (intro h; cases h; done)
    | (intro _ h; cases h; done)
    | (simp only [List.append_nil, List.nil_append]; first
        | assumption
        | (apply byeAfterStart_snoc i14; intro hx; cases hx)
        | (simp only [List.filter_append, i12, i13]; rfl)
        | (intro h; have e := i15 rfl
           simp only [List.append_nil, List.nil_append] at e; rw [e]; rfl))

theorem inv_main (j : Bool) (s s1 : State) (hi : Inv j s) (hr : s.status = .running)
    (hs : main s = some s1) : Inv j s1 := by
  obtain ⟨pcM, pcA, pcB, hA, hB, tmp, st, tty, out, buf, log⟩ := s
  obtain ⟨i1, i6, i8, i9, i10, i11, b1, b2, b3, i12, i13, i14, i15⟩ := hi
  dsimp only at i1 i6 i8 i9 i10 i11 b1 b2 b3 i12 i13 i14 i15 hr
  subst hr
  cases pcM <;> cases j <;> cases pcA <;> cases pcB <;> first
    | (exfalso; revert i1; decide)
    | (simp [main] at hs; done)
    | skip
  all_goals subst i8 i9 i10 i11
  all_goals
    cases tty <;> first
      | (have e := b1 rfl; subst e)
      | (have e := b3 rfl rfl; subst e)
  all_goals simp only [List.append_nil, List.nil_append] at i12 i13 i14
  all_goals
    simp [main, State.record, State.raise, State.done, hAOf, hBOf, tmpOf] at hs
  all_goals subst hs
  all_goals constructor
  all_goals dsimp only
  all_goals first
    | assumption
    | rfl
    | decide
    | (intro h; cases h; done)
    | (intro _ h; cases h; done)
    | (simp only [List.append_nil, List.nil_append]; first
        | assumption
        | (intro h; have e := i15 rfl
           simp only [List.append_nil, List.nil_append] at e; exact e))

theorem inv_abort (j : Bool) (s : State) (f : Fault) (t0 : Tid) (hi : Inv j s)
    (hst : s.status = .terminating f t0) : Inv j { s with status := .aborted f } := by
  obtain ⟨pcM, pcA, pcB, hA, hB, tmp, st, tty, out, buf, log⟩ := s
  obtain ⟨i1, i6, i8, i9, i10, i11, b1, b2, b3, i12, i13, i14, i15⟩ := hi
  dsimp only at i1 i6 i8 i9 i10 i11 b1 b2 b3 i12 i13 i14 i15 hst
  subst hst
  rcases i6 with ⟨h, -⟩ | ⟨hj, hm, h | h⟩ | ⟨-, -, h⟩ <;> cases h
  subst hj hm
  constructor <;> dsimp only <;> first
    | assumption
    | decide

theorem inv_step (j : Bool) (s s1 : State) (t : Tid) (hi : Inv j s)
    (hs : step j s t = some s1) : Inv j s1 := by
  unfold step at hs
  split at hs
  next hr =>
    cases t
    · exact inv_main j s s1 hi hr hs
    · exact inv_threadA j s s1 hi hs
    · exact inv_threadB j s s1 hi hs
  next f t0 hst =>
    split at hs
    · cases hs
      exact inv_abort j s f t0 hi hst
    next hne =>
      have ht0 : t0 = Tid.main := by
        rcases hi.status with ⟨h, -⟩ | ⟨-, -, h | h⟩ | ⟨-, -, h⟩ <;> rw [hst] at h <;> cases h
        rfl
      subst ht0
      cases t
      · exact absurd rfl hne
      · exact inv_threadA j s s1 hi hs
      · exact inv_threadB j s s1 hi hs
  · cases hs
  · cases hs

theorem inv_exec (j : Bool) (sched : List Tid) :
    ∀ s s1 : State, Inv j s → exec j s sched = some s1 → Inv j s1 := by
  induction sched with
  | nil =>
    intro s s1 hi hs
    cases hs
    exact hi
  | cons t ts ih =>
    intro s s1 hi hs
    unfold exec at hs
    cases h : step j s t with
    | none => rw [h] at hs; cases hs
    | some s2 =>
      rw [h] at hs
      exact ih s2 s1 (inv_step j s s2 t hi h) hs

theorem inv_reachable (j : Bool) (s : State) (h : Reachable j s) : Inv j s := by
  obtain ⟨tty, sched, hs⟩ := h
  exact inv_exec j sched (init tty) s (inv_init j tty) hs

/-! ## Every execution is finite -/

theorem fuel_step (j : Bool) (s s1 : State) (t : Tid) (hi : Inv j s)
    (hs : step j s t = some s1) : s1.fuel < s.fuel := by
  obtain ⟨pcM, pcA, pcB, hA, hB, tmp, st, tty1, out, buf, log⟩ := s
  obtain ⟨i1, i6, i8, i9, i10, i11, b1, b2, b3, i12, i13, i14, i15⟩ := hi
  dsimp only at i1 i6 i8 i9 i10 i11 b1 b2 b3 i12 i13 i14 i15
  cases j <;> cases pcM <;> cases pcA <;> cases pcB <;> first
    | (exfalso; revert i1; decide)
    | skip
  all_goals
    rcases i6 with ⟨h, -⟩ | ⟨-, hm, h | h⟩ | ⟨-, hm, h⟩ <;> first
      | cases hm
      | skip
  all_goals subst h i8 i9 i10 i11
  all_goals
    cases t <;>
    simp [step, runThread, main, threadA, threadB, State.print, State.record, State.raise,
      State.done, hAOf, hBOf, tmpOf] at hs
  all_goals subst hs
  all_goals simp [State.fuel, MainPc.rank, APc.rank, BPc.rank]

theorem fuel_exec (j : Bool) (sched : List Tid) :
    ∀ s s1 : State, Inv j s → exec j s sched = some s1 → sched.length + s1.fuel ≤ s.fuel := by
  induction sched with
  | nil =>
    intro s s1 _ hs
    cases hs
    simp
  | cons t ts ih =>
    intro s s1 hi hs
    unfold exec at hs
    cases h : step j s t with
    | none => rw [h] at hs; cases hs
    | some s2 =>
      rw [h] at hs
      have h1 := ih s2 s1 (inv_step j s s2 t hi h) hs
      have h2 := fuel_step j s s2 t hi h
      simp only [List.length_cons]
      omega

/-! ## Standard output -/

theorem tty_step (j : Bool) (s s1 : State) (t : Tid) (hi : Inv j s)
    (hs : step j s t = some s1) : s1.tty = s.tty := by
  obtain ⟨pcM, pcA, pcB, hA, hB, tmp, st, tty1, out, buf, log⟩ := s
  obtain ⟨i1, i6, i8, i9, i10, i11, b1, b2, b3, i12, i13, i14, i15⟩ := hi
  dsimp only at i1 i6 i8 i9 i10 i11 b1 b2 b3 i12 i13 i14 i15
  cases j <;> cases pcM <;> cases pcA <;> cases pcB <;> first
    | (exfalso; revert i1; decide)
    | skip
  all_goals
    rcases i6 with ⟨h, -⟩ | ⟨-, hm, h | h⟩ | ⟨-, hm, h⟩ <;> first
      | cases hm
      | skip
  all_goals subst h i8 i9 i10 i11
  all_goals
    cases t <;>
    simp [step, runThread, main, threadA, threadB, State.print, State.record, State.raise,
      State.done, hAOf, hBOf, tmpOf] at hs
  all_goals subst hs
  all_goals rfl

theorem tty_exec (j : Bool) (sched : List Tid) :
    ∀ s s1 : State, Inv j s → exec j s sched = some s1 → s1.tty = s.tty := by
  induction sched with
  | nil =>
    intro s s1 _ hs
    cases hs
    rfl
  | cons t ts ih =>
    intro s s1 hi hs
    unfold exec at hs
    cases h : step j s t with
    | none => rw [h] at hs; cases hs
    | some s2 =>
      rw [h] at hs
      rw [ih s2 s1 (inv_step j s s2 t hi h) hs, tty_step j s s2 t hi h]

theorem count_printed_B (j : Bool) (s : State) (hi : Inv j s) (x : Line)
    (hx : x ≠ Line.exitA) : (s.out ++ s.buf).count x = (outB s.pcB).count x := by
  rw [← hi.outB]
  exact (List.count_filter (by simpa using hx)).symm

theorem count_printed_A (j : Bool) (s : State) (hi : Inv j s) :
    (s.out ++ s.buf).count Line.exitA = (outA s.pcA).count Line.exitA := by
  rw [← hi.outA]
  exact (List.count_filter (by simp)).symm

theorem mem_printed_A (j : Bool) (s : State) (hi : Inv j s) :
    Line.exitA ∈ s.out ++ s.buf ↔ Line.exitA ∈ outA s.pcA := by
  rw [← hi.outA, List.mem_filter]
  simp

theorem out_eq_printed (j : Bool) (s : State) (hi : Inv j s) (ht : s.tty = true) :
    s.out = s.out ++ s.buf := by
  rw [hi.bufTty ht, List.append_nil]

theorem count_out_le (s : State) (x : Line) : s.out.count x ≤ (s.out ++ s.buf).count x := by
  rw [List.count_append]
  exact Nat.le_add_right _ _

/-! ## The claims -/


theorem terminal_given (s : State) (hi : Inv false s) :
    (Terminal false s ↔ s.status = .aborted (.destroyedWhileJoinable .B)) := by
  obtain ⟨pcM, pcA, pcB, hA, hB, tmp, st, tty1, out, buf, log⟩ := s
  obtain ⟨i1, i6, i8, i9, i10, i11, b1, b2, b3, i12, i13, i14, i15⟩ := hi
  dsimp only at i1 i6 i8 i9 i10 i11 b1 b2 b3 i12 i13 i14 i15
  cases pcM <;> cases pcA <;> cases pcB <;> first
    | (exfalso; revert i1; decide)
    | skip
  all_goals
    rcases i6 with ⟨h, -⟩ | ⟨-, hm, h | h⟩ | ⟨-, hm, h⟩ <;> first
      | cases hm
      | skip
  all_goals subst h i8 i9 i10 i11
  all_goals refine ⟨fun hT => ?_, fun hs => ?_⟩
  all_goals first
    | rfl
    | (intro t; rfl)
    | cases hs
    | (exfalso
       have h1 := hT .main
       have h2 := hT .A
       have h3 := hT .B
       simp [step, runThread, main, threadA, threadB, State.print, State.record, State.raise, State.done,
         hAOf, hBOf, tmpOf] at h1 h2 h3)

theorem terminal_join (s : State) (hi : Inv true s) :
    (Terminal true s ↔ s.status = .exited 0) := by
  obtain ⟨pcM, pcA, pcB, hA, hB, tmp, st, tty1, out, buf, log⟩ := s
  obtain ⟨i1, i6, i8, i9, i10, i11, b1, b2, b3, i12, i13, i14, i15⟩ := hi
  dsimp only at i1 i6 i8 i9 i10 i11 b1 b2 b3 i12 i13 i14 i15
  cases pcM <;> cases pcA <;> cases pcB <;> first
    | (exfalso; revert i1; decide)
    | skip
  all_goals
    rcases i6 with ⟨h, hne⟩ | ⟨hj, hm, h | h⟩ | ⟨-, hm, h⟩ <;> first
      | exact absurd rfl hne
      | cases hj
      | cases hm
      | skip
  all_goals subst h i8 i9 i10 i11
  all_goals refine ⟨fun hT => ?_, fun hs => ?_⟩
  all_goals first
    | rfl
    | (intro t; rfl)
    | cases hs
    | (exfalso
       have h1 := hT .main
       have h2 := hT .A
       have h3 := hT .B
       simp [step, runThread, main, threadA, threadB, State.print, State.record, State.raise, State.done,
         hAOf, hBOf, tmpOf] at h1 h2 h3)

/-- C1: for the program as given (no join on B inside threadA), every
execution is finite (at most 20 steps), none reaches a normal exit, and the
complete executions (no thread can move) are exactly those that ended in the
abort for the destroyed-while-joinable breach on handle B.  Whenever the
fatal condition has been raised, `main` is at the destruction of `B`, handle
B holds the task that threadA assigned into it and nobody has joined it; and
whenever `main` arrives at the destruction of `B`, that destruction raises the
breach.  The schedule is arbitrary, so this covers the interleavings in which
task B has already returned. -/
theorem given_program_always_aborts (tty : Bool) (sched : List Tid) (s : State)
    (h : exec false (init tty) sched = some s) :
    sched.length ≤ 20 ∧
    (∀ c, s.status ≠ .exited c) ∧
    (Terminal false s ↔ s.status = .aborted (.destroyedWhileJoinable .B)) ∧
    (s.fatal = true →
      s.pcMain = .destroyB ∧ s.hB = some (.joinable .B) ∧
      Event.assign .A .B .tmp ∈ s.log ∧ (∀ t, Event.join t .B ∉ s.log) ∧
      (s.status = .terminating (.destroyedWhileJoinable .B) .main ∨
        s.status = .aborted (.destroyedWhileJoinable .B))) ∧
    (s.pcMain = .destroyB → s.status = .running →
      (step false s .main).map State.status =
        some (.terminating (.destroyedWhileJoinable .B) .main)) := by
  have hi := inv_exec false sched (init tty) s (inv_init false tty) h
  have hf := fuel_exec false sched (init tty) s (inv_init false tty) h
  have h20 : (init tty).fuel = 20 := rfl
  refine ⟨by omega, ?_, terminal_given s hi, ?_, ?_⟩
  all_goals clear hf h20 h
  all_goals obtain ⟨pcM, pcA, pcB, hA, hB, tmp, st, tty1, out, buf, log⟩ := s
  all_goals obtain ⟨i1, i6, i8, i9, i10, i11, b1, b2, b3, i12, i13, i14, i15⟩ := hi
  all_goals dsimp only at i1 i6 i8 i9 i10 i11 b1 b2 b3 i12 i13 i14 i15 ⊢
  all_goals
    cases pcM <;> cases pcA <;> cases pcB <;> first
      | (exfalso; revert i1; decide)
      | skip
  all_goals
    rcases i6 with ⟨h, -⟩ | ⟨-, hm, h | h⟩ | ⟨-, hm, h⟩ <;> first
      | cases hm
      | skip
  all_goals subst h i8 i9 i10 i11
  all_goals
    simp [State.fatal, logMainPre, logA, logMainPost, hAOf, hBOf, tmpOf, step, runThread, main,
      State.raise, State.record]

/-- Witness for C1: the run in which task B has returned before the scope of
`main` ends still aborts on the destruction of `B`. -/
theorem given_program_always_aborts_witness :
    exec false (init true) schedAllB = some stAllB ∧ stAllB.pcB = .finished ∧
    schedAllB.length ≤ 20 ∧
    (∀ c, stAllB.status ≠ .exited c) ∧
    (Terminal false stAllB ↔ stAllB.status = .aborted (.destroyedWhileJoinable .B)) ∧
    (stAllB.fatal = true →
      stAllB.pcMain = .destroyB ∧ stAllB.hB = some (.joinable .B) ∧
      Event.assign .A .B .tmp ∈ stAllB.log ∧ (∀ t, Event.join t .B ∉ stAllB.log) ∧
      (stAllB.status = .terminating (.destroyedWhileJoinable .B) .main ∨
        stAllB.status = .aborted (.destroyedWhileJoinable .B))) ∧
    (stAllB.pcMain = .destroyB → stAllB.status = .running →
      (step false stAllB .main).map State.status =
        some (.terminating (.destroyedWhileJoinable .B) .main)) :=
  ⟨rfl, rfl, given_program_always_aborts true schedAllB stAllB rfl⟩

/-- C2, as stated, fails: when standard output is not a terminal, the run in
which `main` and threadA take all the steps is aborted with nothing written
to the output; "Exit Thread A" is still in the buffer, which `abort` does
not flush. -/
theorem exitA_lost_in_buffer :
    exec false (init false) schedNoB = some stNoBFile ∧
    stNoBFile.status = .aborted (.destroyedWhileJoinable .B) ∧
    stNoBFile.fatal = true ∧ Line.exitA ∉ stNoBFile.out ∧
    stNoBFile.out = [] ∧ stNoBFile.buf = [.exitA] :=
  ⟨rfl, rfl, rfl, by decide, rfl, rfl⟩

/-- C2, amended: for the program as given, whenever the fatal condition has
been raised threadA has already printed "Exit Thread A" (the line is in the
output or in the buffer of standard output), and when standard output is a
terminal the line is in the output.  ThreadA has printed the line once it has
returned, `A.join()` in `main` is in the history only when threadA has
returned, and the destruction of `B` is in the history only after that
join. -/
theorem exitA_printed_before_fatal (tty : Bool) (sched : List Tid) (s : State)
    (h : exec false (init tty) sched = some s) :
    (s.fatal = true → Line.exitA ∈ s.out ++ s.buf) ∧
    (tty = true → s.fatal = true → Line.exitA ∈ s.out) ∧
    (s.pcA = .finished → Line.exitA ∈ s.out ++ s.buf) ∧
    (Event.join .main .A ∈ s.log → s.pcA = .finished) ∧
    (Event.destroy .main .B ∈ s.log → Event.join .main .A ∈ s.log) := by
  have hi := inv_exec false sched (init tty) s (inv_init false tty) h
  have ht : s.tty = tty := tty_exec false sched (init tty) s (inv_init false tty) h
  have hmem := mem_printed_A false s hi
  suffices key : (s.fatal = true → Line.exitA ∈ outA s.pcA) ∧
      (s.pcA = .finished → Line.exitA ∈ outA s.pcA) ∧
      (Event.join .main .A ∈ s.log → s.pcA = .finished) ∧
      (Event.destroy .main .B ∈ s.log → Event.join .main .A ∈ s.log) by
    refine ⟨fun hf => hmem.mpr (key.1 hf), fun htt hf => ?_,
      fun hp => hmem.mpr (key.2.1 hp), key.2.2.1, key.2.2.2⟩
    rw [out_eq_printed false s hi (ht.trans htt)]
    exact hmem.mpr (key.1 hf)
  clear hmem ht h
  obtain ⟨pcM, pcA, pcB, hA, hB, tmp, st, tty1, out, buf, log⟩ := s
  obtain ⟨i1, i6, i8, i9, i10, i11, b1, b2, b3, i12, i13, i14, i15⟩ := hi
  dsimp only at i1 i6 i8 i9 i10 i11 b1 b2 b3 i12 i13 i14 i15 ⊢
  cases pcM <;> cases pcA <;> cases pcB <;> first
    | (exfalso; revert i1; decide)
    | skip
  all_goals
    rcases i6 with ⟨h, -⟩ | ⟨-, hm, h | h⟩ | ⟨-, hm, h⟩ <;> first
      | cases hm
      | skip
  all_goals subst h i8 i9 i10 i11
  all_goals simp [State.fatal, logMainPre, logA, logMainPost, outA]

/-- Witness for the amended C2: on a terminal, the run in which task B never
gets to run. -/
theorem exitA_printed_before_fatal_witness :
    exec false (init true) schedNoB = some stNoB ∧
    (stNoB.fatal = true → Line.exitA ∈ stNoB.out ++ stNoB.buf) ∧
    (true = true → stNoB.fatal = true → Line.exitA ∈ stNoB.out) ∧
    (stNoB.pcA = .finished → Line.exitA ∈ stNoB.out ++ stNoB.buf) ∧
    (Event.join .main .A ∈ stNoB.log → stNoB.pcA = .finished) ∧
    (Event.destroy .main .B ∈ stNoB.log → Event.join .main .A ∈ stNoB.log) :=
  ⟨rfl, exitA_printed_before_fatal true schedNoB stNoB rfl⟩

/-- C4: for the program with `B.join()` present in threadA (line 12), every
execution is finite, the fatal condition is never raised, the complete
executions are exactly those that exited with code 0, at exit the output is
exactly "Start thread B", "Bye thread B", "Exit Thread A" in that order, and
once `A.join()` has returned in `main` no handle is joinable. -/
theorem join_variant_exits_normally (tty : Bool) (sched : List Tid) (s : State)
    (h : exec true (init tty) sched = some s) :
    sched.length ≤ 20 ∧
    s.fatal = false ∧
    (Terminal true s ↔ s.status = .exited 0) ∧
    (∀ c, s.status = .exited c →
      c = 0 ∧ s.out = [.startB, .byeB, .exitA] ∧
      s.out.map Line.text = ["Start thread B\n", "Bye thread B\n", "Exit Thread A\n"]) ∧
    (3 ≤ s.pcMain.rank →
      ∀ x, s.hA = some x ∨ s.hB = some x ∨ s.tmp = some x → x.isJoinable = false) := by
  have hi := inv_exec true sched (init tty) s (inv_init true tty) h
  have hf := fuel_exec true sched (init tty) s (inv_init true tty) h
  have h20 : (init tty).fuel = 20 := rfl
  refine ⟨by omega, ?_, terminal_join s hi, ?_, ?_⟩
  all_goals clear hf h20 h
  all_goals obtain ⟨pcM, pcA, pcB, hA, hB, tmp, st, tty1, out, buf, log⟩ := s
  all_goals obtain ⟨i1, i6, i8, i9, i10, i11, b1, b2, b3, i12, i13, i14, i15⟩ := hi
  all_goals dsimp only at i1 i6 i8 i9 i10 i11 b1 b2 b3 i12 i13 i14 i15 ⊢
  all_goals have i16 := i15 rfl
  all_goals
    cases pcM <;> cases pcA <;> cases pcB <;> first
      | (exfalso; revert i1; decide)
      | skip
  all_goals
    rcases i6 with ⟨h, -⟩ | ⟨hj, hm, h | h⟩ | ⟨-, hm, h⟩ <;> first
      | cases hj
      | cases hm
      | skip
  all_goals subst h i8 i9 i10 i11
  all_goals
    cases tty1 <;> first
      | (have e := b1 rfl; subst e)
      | (have e := b2 rfl; subst e)
      | (have e := b3 rfl rfl; subst e)
  all_goals simp only [List.append_nil, List.nil_append] at i16
  all_goals subst i16
  all_goals
    simp [State.fatal, hAOf, hBOf, tmpOf, outA, outB, MainPc.rank, Handle.isJoinable, Line.text]

/-- Witness for C4: a complete run of the program with line 12 present, with
standard output not a terminal. -/
theorem join_variant_exits_normally_witness :
    exec true (init false) schedJoin = some stJoin ∧
    schedJoin.length ≤ 20 ∧
    stJoin.fatal = false ∧
    (Terminal true stJoin ↔ stJoin.status = .exited 0) ∧
    (∀ c, stJoin.status = .exited c →
      c = 0 ∧ stJoin.out = [.startB, .byeB, .exitA] ∧
      stJoin.out.map Line.text = ["Start thread B\n", "Bye thread B\n", "Exit Thread A\n"]) ∧
    (3 ≤ stJoin.pcMain.rank →
      ∀ x, stJoin.hA = some x ∨ stJoin.hB = some x ∨ stJoin.tmp = some x →
        x.isJoinable = false) :=
  ⟨rfl, join_variant_exits_normally false schedJoin stJoin rfl⟩

theorem scope_end_core (s : State) (hi : Inv false s) :
    (s.pcMain = .destroyA →
      s.hA = some .joined ∧ s.hB = some (.joinable .B) ∧ s.status = .running ∧
      Event.construct .main .B ∈ s.log ∧ Event.assign .A .B .tmp ∈ s.log ∧
      (step false s .main).map (fun s1 => (s1.status, s1.pcMain, s1.hA)) =
        some (.running, .destroyB, none)) ∧
    (∀ f, (s.status = .aborted f ∨ ∃ t, s.status = .terminating f t) →
      f = .destroyedWhileJoinable .B) ∧
    (s.fatal = true → s.log.getLast? = some (.destroy .main .B)) := by
  obtain ⟨pcM, pcA, pcB, hA, hB, tmp, st, tty1, out, buf, log⟩ := s
  obtain ⟨i1, i6, i8, i9, i10, i11, b1, b2, b3, i12, i13, i14, i15⟩ := hi
  dsimp only at i1 i6 i8 i9 i10 i11 b1 b2 b3 i12 i13 i14 i15 ⊢
  cases pcM <;> cases pcA <;> cases pcB <;> first
    | (exfalso; revert i1; decide)
    | skip
  all_goals
    rcases i6 with ⟨h, -⟩ | ⟨-, hm, h | h⟩ | ⟨-, hm, h⟩ <;> first
      | cases hm
      | skip
  all_goals subst h i8 i9 i10 i11
  all_goals
    simp [State.fatal, logMainPre, logA, logMainPost, hAOf, hBOf, tmpOf, step, runThread, main,
      State.raise, State.record]

theorem destroyB_raises (s : State) (hi : Inv false s) :
    (s.pcMain = .destroyA →
      (exec false s [.main, .main]).map (fun s2 => (s2.status, s2.log.getLast?)) =
        some (.terminating (.destroyedWhileJoinable .B) .main, some (.destroy .main .B))) ∧
    (s.pcMain = .destroyB → s.status = .running →
      s.hB = some (.joinable .B) ∧
      (step false s .main).map (fun s1 => (s1.status, s1.log.getLast?)) =
        some (.terminating (.destroyedWhileJoinable .B) .main, some (.destroy .main .B))) := by
  obtain ⟨pcM, pcA, pcB, hA, hB, tmp, st, tty1, out, buf, log⟩ := s
  obtain ⟨i1, i6, i8, i9, i10, i11, b1, b2, b3, i12, i13, i14, i15⟩ := hi
  dsimp only at i1 i6 i8 i9 i10 i11 b1 b2 b3 i12 i13 i14 i15 ⊢
  cases pcM <;> cases pcA <;> cases pcB <;> first
    | (exfalso; revert i1; decide)
    | skip
  all_goals
    rcases i6 with ⟨h, -⟩ | ⟨-, hm, h | h⟩ | ⟨-, hm, h⟩ <;> first
      | cases hm
      | skip
  all_goals subst h i8 i9 i10 i11
  all_goals refine ⟨fun hm => ?_, fun hm hr => ?_⟩
  all_goals first
    | rfl
    | exact ⟨rfl, rfl⟩
    | (cases hm; done)
    | (cases hr; done)

/-- C5: for the program as given, when `main` is at its closing brace
(`A.join()` has returned, no destructor has run yet) handle A is joined and
handle B, constructed by `main` and assigned by threadA, owns the joinable
task B; the destructor of A then runs without a fault and `main` moves on to
the destructor of B, and that destructor, the second step of `main` from the
closing brace, raises the destroyed-while-joinable breach on handle B.
Whenever `main` is about to destroy `B`, handle B owns the joinable task B and
the destruction raises that breach.  Every fault the program raises is the
destroyed-while-joinable breach on handle B, and the operation that raised
it is the destruction of `B` by `main`. -/
theorem scope_end_handle_states (tty : Bool) (sched : List Tid) (s : State)
    (h : exec false (init tty) sched = some s) :
    (s.pcMain = .destroyA →
      s.hA = some .joined ∧ s.hB = some (.joinable .B) ∧ s.status = .running ∧
      Event.construct .main .B ∈ s.log ∧ Event.assign .A .B .tmp ∈ s.log ∧
      (step false s .main).map (fun s1 => (s1.status, s1.pcMain, s1.hA)) =
        some (.running, .destroyB, none) ∧
      (exec false s [.main, .main]).map (fun s2 => (s2.status, s2.log.getLast?)) =
        some (.terminating (.destroyedWhileJoinable .B) .main, some (.destroy .main .B))) ∧
    (s.pcMain = .destroyB → s.status = .running →
      s.hB = some (.joinable .B) ∧
      (step false s .main).map (fun s1 => (s1.status, s1.log.getLast?)) =
        some (.terminating (.destroyedWhileJoinable .B) .main, some (.destroy .main .B))) ∧
    (∀ f, (s.status = .aborted f ∨ ∃ t, s.status = .terminating f t) →
      f = .destroyedWhileJoinable .B) ∧
    (s.fatal = true → s.log.getLast? = some (.destroy .main .B)) := by
  have hi := inv_exec false sched (init tty) s (inv_init false tty) h
  obtain ⟨c1, c2, c3⟩ := scope_end_core s hi
  obtain ⟨d1, d2⟩ := destroyB_raises s hi
  refine ⟨fun hm => ?_, d2, c2, c3⟩
  obtain ⟨e1, e2, e3, e4, e5, e6⟩ := c1 hm
  exact ⟨e1, e2, e3, e4, e5, e6, d1 hm⟩

/-- Witness for C5: the state at the closing brace of `main`. -/
theorem scope_end_handle_states_witness :
    exec false (init true) schedScopeEnd = some stScopeEnd ∧
    (stScopeEnd.pcMain = .destroyA →
      stScopeEnd.hA = some .joined ∧ stScopeEnd.hB = some (.joinable .B) ∧
      stScopeEnd.status = .running ∧
      Event.construct .main .B ∈ stScopeEnd.log ∧ Event.assign .A .B .tmp ∈ stScopeEnd.log ∧
      (step false stScopeEnd .main).map (fun s1 => (s1.status, s1.pcMain, s1.hA)) =
        some (.running, .destroyB, none) ∧
      (exec false stScopeEnd [.main, .main]).map (fun s2 => (s2.status, s2.log.getLast?)) =
        some (.terminating (.destroyedWhileJoinable .B) .main, some (.destroy .main .B))) ∧
    (stScopeEnd.pcMain = .destroyB → stScopeEnd.status = .running →
      stScopeEnd.hB = some (.joinable .B) ∧
      (step false stScopeEnd .main).map (fun s1 => (s1.status, s1.log.getLast?)) =
        some (.terminating (.destroyedWhileJoinable .B) .main, some (.destroy .main .B))) ∧
    (∀ f, (stScopeEnd.status = .aborted f ∨ ∃ t, stScopeEnd.status = .terminating f t) →
      f = .destroyedWhileJoinable .B) ∧
    (stScopeEnd.fatal = true → stScopeEnd.log.getLast? = some (.destroy .main .B)) :=
  ⟨rfl, scope_end_handle_states true schedScopeEnd stScopeEnd rfl⟩

/-- C6: for the program as given, "Bye thread B" is not determined: one run
is aborted with the line in the output, another is aborted without it (both
with standard output a terminal). -/
theorem byeB_not_determined :
    (exec false (init true) schedAllB = some stAllB ∧
      stAllB.status = .aborted (.destroyedWhileJoinable .B) ∧ Line.byeB ∈ stAllB.out) ∧
    (exec false (init true) schedNoB = some stNoB ∧
      stNoB.status = .aborted (.destroyedWhileJoinable .B) ∧ Line.byeB ∉ stNoB.out) :=
  ⟨⟨rfl, rfl, by decide⟩, ⟨rfl, rfl, by decide⟩⟩

theorem terminal_pcA (j : Bool) (s : State) (hi : Inv j s) (hT : Terminal j s) :
    s.pcA = .finished := by
  cases j
  · have h1 := (terminal_given s hi).mp hT
    rcases hi.status with ⟨h2, -⟩ | ⟨-, hm, h2 | h2⟩ | ⟨hj, -, -⟩
    · rw [h1] at h2; cases h2
    · rw [h1] at h2; cases h2
    · have hs := hi.shape
      rw [hm] at hs
      revert hs
      cases s.pcA <;> cases s.pcB <;> decide
    · cases hj
  · have h1 := (terminal_join s hi).mp hT
    rcases hi.status with ⟨h2, -⟩ | ⟨hj, -, -⟩ | ⟨-, hm, -⟩
    · rw [h1] at h2; cases h2
    · cases hj
    · have hs := hi.shape
      rw [hm] at hs
      revert hs
      cases s.pcA <;> cases s.pcB <;> decide

/-- C7: in every execution, with or without line 12, when threadA is about
to assign into handle B that handle is empty and its default construction by
`main` is the only operation performed on it so far; the history holds at
most one assignment into B (none before threadA passes line 11, one after),
every such assignment is the one by threadA, a complete execution holds
exactly one, and the reassigned-while-joinable breach is never raised. -/
theorem assignment_into_empty_handle (j tty : Bool) (sched : List Tid) (s : State)
    (h : exec j (init tty) sched = some s) :
    (s.pcA = .assignB →
      s.hB = some .empty ∧ s.log.filter (Event.touches .B) = [.construct .main .B]) ∧
    s.log.countP (Event.assignsTo .B) = (if 3 ≤ s.pcA.rank then 1 else 0) ∧
    (∀ e ∈ s.log, e.assignsTo .B = true → e = .assign .A .B .tmp) ∧
    (Terminal j s → s.log.countP (Event.assignsTo .B) = 1) ∧
    (∀ x, s.status ≠ .aborted (.reassignedWhileJoinable x) ∧
      ∀ t, s.status ≠ .terminating (.reassignedWhileJoinable x) t) := by
  have hi := inv_exec j sched (init tty) s (inv_init j tty) h
  have hT := terminal_pcA j s hi
  suffices key : (s.pcA = .assignB →
      s.hB = some .empty ∧ s.log.filter (Event.touches .B) = [.construct .main .B]) ∧
    s.log.countP (Event.assignsTo .B) = (if 3 ≤ s.pcA.rank then 1 else 0) ∧
    (∀ e ∈ s.log, e.assignsTo .B = true → e = .assign .A .B .tmp) ∧
    (s.pcA = .finished → s.log.countP (Event.assignsTo .B) = 1) ∧
    (∀ x, s.status ≠ .aborted (.reassignedWhileJoinable x) ∧
      ∀ t, s.status ≠ .terminating (.reassignedWhileJoinable x) t) from
    ⟨key.1, key.2.1, key.2.2.1, fun hx => key.2.2.2.1 (hT hx), key.2.2.2.2⟩
  clear hT h
  obtain ⟨pcM, pcA, pcB, hA, hB, tmp, st, tty1, out, buf, log⟩ := s
  obtain ⟨i1, i6, i8, i9, i10, i11, b1, b2, b3, i12, i13, i14, i15⟩ := hi
  dsimp only at i1 i6 i8 i9 i10 i11 b1 b2 b3 i12 i13 i14 i15 ⊢
  cases j <;> cases pcM <;> cases pcA <;> cases pcB <;> first
    | (exfalso; revert i1; decide)
    | skip
  all_goals
    rcases i6 with ⟨h, -⟩ | ⟨hj, hm, h | h⟩ | ⟨hj, hm, h⟩ <;> first
      | cases hj
      | cases hm
      | skip
  all_goals subst h i8 i9 i10 i11
  all_goals
    exact ⟨by decide, by decide, by decide, by decide,
      fun x => ⟨fun h => (by cases h), fun t h => (by cases h)⟩⟩

/-- Witness for C7: the program as given at the point where threadA is
about to assign into `B`. -/
theorem assignment_into_empty_handle_witness :
    exec false (init true) [.main, .main, .A] = some stBeforeAssign ∧
    (stBeforeAssign.pcA = .assignB →
      stBeforeAssign.hB = some .empty ∧
      stBeforeAssign.log.filter (Event.touches .B) = [.construct .main .B]) ∧
    stBeforeAssign.log.countP (Event.assignsTo .B) =
      (if 3 ≤ stBeforeAssign.pcA.rank then 1 else 0) ∧
    (∀ e ∈ stBeforeAssign.log, e.assignsTo .B = true → e = .assign .A .B .tmp) ∧
    (Terminal false stBeforeAssign → stBeforeAssign.log.countP (Event.assignsTo .B) = 1) ∧
    (∀ x, stBeforeAssign.status ≠ .aborted (.reassignedWhileJoinable x) ∧
      ∀ t, stBeforeAssign.status ≠ .terminating (.reassignedWhileJoinable x) t) :=
  ⟨rfl, assignment_into_empty_handle false true [.main, .main, .A] stBeforeAssign rfl⟩

/-- C8: for the program as given, when `main` is about to execute
`A.join()` handle A owns the joinable task A; the joins in the history are
none before that call returns and exactly the one join on A by `main`
afterwards; once it is in the history handle A is joined (or already
destroyed) and so owns nothing; a complete execution holds exactly one join;
and the join-on-a-handle-that-is-not-joinable breach is never raised. -/
theorem join_applied_once_to_joinable (tty : Bool) (sched : List Tid) (s : State)
    (h : exec false (init tty) sched = some s) :
    (s.pcMain = .joinA → s.hA = some (.joinable .A)) ∧
    s.log.filter Event.isJoin = (if 3 ≤ s.pcMain.rank then [.join .main .A] else []) ∧
    (Event.join .main .A ∈ s.log → s.hA = some .joined ∨ s.hA = none) ∧
    (Terminal false s → s.log.countP Event.isJoin = 1) ∧
    (∀ x, s.status ≠ .aborted (.joinNotJoinable x) ∧
      ∀ t, s.status ≠ .terminating (.joinNotJoinable x) t) := by
  have hi := inv_exec false sched (init tty) s (inv_init false tty) h
  have hT := (terminal_given s hi).mp
  suffices key : (s.pcMain = .joinA → s.hA = some (.joinable .A)) ∧
    s.log.filter Event.isJoin = (if 3 ≤ s.pcMain.rank then [.join .main .A] else []) ∧
    (Event.join .main .A ∈ s.log → s.hA = some .joined ∨ s.hA = none) ∧
    (s.status = .aborted (.destroyedWhileJoinable .B) → s.log.countP Event.isJoin = 1) ∧
    (∀ x, s.status ≠ .aborted (.joinNotJoinable x) ∧
      ∀ t, s.status ≠ .terminating (.joinNotJoinable x) t) from
    ⟨key.1, key.2.1, key.2.2.1, fun hx => key.2.2.2.1 (hT hx), key.2.2.2.2⟩
  clear hT h
  obtain ⟨pcM, pcA, pcB, hA, hB, tmp, st, tty1, out, buf, log⟩ := s
  obtain ⟨i1, i6, i8, i9, i10, i11, b1, b2, b3, i12, i13, i14, i15⟩ := hi
  dsimp only at i1 i6 i8 i9 i10 i11 b1 b2 b3 i12 i13 i14 i15 ⊢
  cases pcM <;> cases pcA <;> cases pcB <;> first
    | (exfalso; revert i1; decide)
    | skip
  all_goals
    rcases i6 with ⟨h, -⟩ | ⟨-, hm, h | h⟩ | ⟨-, hm, h⟩ <;> first
      | cases hm
      | skip
  all_goals subst h i8 i9 i10 i11
  all_goals
    exact ⟨by decide, by decide, by decide, by decide,
      fun x => ⟨fun h => (by cases h), fun t h => (by cases h)⟩⟩

/-- Witness for C8: a complete run of the program as given. -/
theorem join_applied_once_to_joinable_witness :
    exec false (init true) schedNoB = some stNoB ∧
    (stNoB.pcMain = .joinA → stNoB.hA = some (.joinable .A)) ∧
    stNoB.log.filter Event.isJoin =
      (if 3 ≤ stNoB.pcMain.rank then [.join .main .A] else []) ∧
    (Event.join .main .A ∈ stNoB.log → stNoB.hA = some .joined ∨ stNoB.hA = none) ∧
    (Terminal false stNoB → stNoB.log.countP Event.isJoin = 1) ∧
    (∀ x, stNoB.status ≠ .aborted (.joinNotJoinable x) ∧
      ∀ t, stNoB.status ≠ .terminating (.joinNotJoinable x) t) :=
  ⟨rfl, join_applied_once_to_joinable true schedNoB stNoB rfl⟩

/-- C9: for the program as given, in no reachable state are two different
threads both about to operate on handle B; and the history, restricted to
the operations on handle B together with the spawn of A and the join on A,
is always an initial part of: construction of B by `main`, spawn of A, the
assignment by threadA, `A.join()` by `main`, destruction of B by `main`.
So the write by threadA lies between the spawn of A and the join on A, and
the destruction lies after that join. -/
theorem handle_B_accesses_ordered (tty : Bool) (sched : List Tid) (s : State)
    (h : exec false (init tty) sched = some s) :
    (∀ t1 t2, accesses false s t1 .B = true → accesses false s t2 .B = true → t1 = t2) ∧
    (s.log.filter (fun e => e.touches .B || decide (e = .spawn .main .A .A) ||
        decide (e = .join .main .A))) <+:
      [.construct .main .B, .spawn .main .A .A, .assign .A .B .tmp, .join .main .A,
        .destroy .main .B] := by
  have hi := inv_exec false sched (init tty) s (inv_init false tty) h
  clear h
  obtain ⟨pcM, pcA, pcB, hA, hB, tmp, st, tty1, out, buf, log⟩ := s
  obtain ⟨i1, i6, i8, i9, i10, i11, b1, b2, b3, i12, i13, i14, i15⟩ := hi
  dsimp only at i1 i6 i8 i9 i10 i11 b1 b2 b3 i12 i13 i14 i15 ⊢
  cases pcM <;> cases pcA <;> cases pcB <;> first
    | (exfalso; revert i1; decide)
    | skip
  all_goals
    rcases i6 with ⟨h, -⟩ | ⟨-, hm, h | h⟩ | ⟨-, hm, h⟩ <;> first
      | cases hm
      | skip
  all_goals subst h i8 i9 i10 i11
  all_goals refine ⟨?_, by decide⟩
  all_goals intro t1 t2
  all_goals
    cases t1 <;> cases t2 <;> first
      | (intro _ _; rfl)
      | (intro h1 h2; first
          | (cases h1; done)
          | cases h2)

/-- Witness for C9: threadA is about to assign into `B` while `main` waits in
`A.join()`; only threadA is about to operate on handle B. -/
theorem handle_B_accesses_ordered_witness :
    exec false (init true) [.main, .main, .A] = some stBeforeAssign ∧
    accesses false stBeforeAssign .A .B = true ∧
    accesses false stBeforeAssign .main .B = false ∧
    (∀ t1 t2, accesses false stBeforeAssign t1 .B = true →
      accesses false stBeforeAssign t2 .B = true → t1 = t2) ∧
    (stBeforeAssign.log.filter (fun e => e.touches .B || decide (e = .spawn .main .A .A) ||
        decide (e = .join .main .A))) <+:
      [.construct .main .B, .spawn .main .A .A, .assign .A .B .tmp, .join .main .A,
        .destroy .main .B] :=
  ⟨rfl, rfl, rfl, handle_B_accesses_ordered true [.main, .main, .A] stBeforeAssign rfl⟩

/-- C10: in every reachable state, with or without line 12, each of the
three lines occurs at most once in the output, and every "Bye thread B" in
the output has a "Start thread B" somewhere before it. -/
theorem output_lines_at_most_once (j tty : Bool) (sched : List Tid) (s : State)
    (h : exec j (init tty) sched = some s) :
    s.out.count Line.startB ≤ 1 ∧ s.out.count Line.byeB ≤ 1 ∧ s.out.count Line.exitA ≤ 1 ∧
    (∀ pre post, s.out = pre ++ Line.byeB :: post → Line.startB ∈ pre) := by
  have hi := inv_exec j sched (init tty) s (inv_init j tty) h
  have h1 := count_out_le s Line.startB
  have h2 := count_out_le s Line.byeB
  have h3 := count_out_le s Line.exitA
  rw [count_printed_B j s hi _ (by decide)] at h1 h2
  rw [count_printed_A j s hi] at h3
  have k1 : (outB s.pcB).count Line.startB ≤ 1 := by cases s.pcB <;> decide
  have k2 : (outB s.pcB).count Line.byeB ≤ 1 := by cases s.pcB <;> decide
  have k3 : (outA s.pcA).count Line.exitA ≤ 1 := by cases s.pcA <;> decide
  refine ⟨by omega, by omega, by omega, fun pre post e => ?_⟩
  exact hi.order pre (post ++ s.buf) (by rw [e]; simp)

/-- Witness for C10: on a terminal, the run of the program as given that
prints all three lines. -/
theorem output_lines_at_most_once_witness :
    exec false (init true) schedAllB = some stAllB ∧
    stAllB.out.count Line.startB ≤ 1 ∧ stAllB.out.count Line.byeB ≤ 1 ∧
    stAllB.out.count Line.exitA ≤ 1 ∧
    (∀ pre post, stAllB.out = pre ++ Line.byeB :: post → Line.startB ∈ pre) :=
  ⟨rfl, output_lines_at_most_once false true schedAllB stAllB rfl⟩

end WrongEx
